import Mathlib

set_option maxRecDepth 100000

/-!
Shallow embedding of the gmail-pubsub-handler repository (src/index.js and
src/deduplication.js, the latter reproduced in src/README.md) for checking the
natural-language specification against the code.

Remote services (Firestore, Gmail, Calendar, Drive) are modelled as explicit
state plus fault-injection oracles carried in an environment record; every
remote call performed by the embedded code is recorded in a trace.  JavaScript
numbers that hold Gmail history ids are modelled as `Nat` (they are
non-negative integers in the payloads); JS truthiness of a possibly-absent
number (`x && ...`, `x || y`) is modelled on `Option Nat` with `0` falsy, and
truthiness of a possibly-absent string with `""` falsy, exactly as in JS.
-/

namespace GmailHandler

/-- Case-insensitive matching in the source is done by lowercasing both sides;
`String.toLowerCase` is modelled by mapping `Char.toLower` (the source only
matches ASCII patterns). -/
def sLower (s : String) : String :=
  String.mk (s.data.map Char.toLower)

/-- Is the first list a prefix of the second? -/
def listIsPre : List Char → List Char → Bool
  | [], _ => true
  | _ :: _, [] => false
  | a :: as, b :: bs => a = b ∧ listIsPre as bs

/-- Substring occurrence at any position. -/
def listHasSub (needle : List Char) : List Char → Bool
  | [] => needle = []
  | c :: cs => listIsPre needle (c :: cs) ∨ listHasSub needle cs

/-- JS `String.prototype.includes`: substring containment. -/
def sContains (hay needle : String) : Bool :=
  listHasSub needle.data hay.data

/-- JS `String.prototype.startsWith`. -/
def sStartsWith (s pre : String) : Bool :=
  listIsPre pre.data s.data

/-- Split a character list at every separator the predicate accepts. -/
def splitByAux (p : Char → Bool) (acc : List Char) : List Char → List String
  | [] => [String.mk acc.reverse]
  | c :: rest =>
    if p c then String.mk acc.reverse :: splitByAux p [] rest
    else splitByAux p (c :: acc) rest

/-- See `splitByAux`. -/
def splitBy (p : Char → Bool) (s : String) : List String :=
  splitByAux p [] s.data

/-- JS truthiness of a possibly-absent string (`undefined` and `""` are falsy). -/
def strTruthy : Option String → Bool
  | some s => s ≠ ""
  | none => false

/-- JS `a || b` where `a` is a possibly-absent string. -/
def jsOrStr : Option String → String → String
  | some s, d => if s = "" then d else s
  | none, d => d

/-- JS `a || b` where `a` is a possibly-absent number (`0` is falsy). -/
def jsOrNat : Option Nat → Nat → Nat
  | some a, b => if a = 0 then b else a
  | none, b => b

/-! ### Base64 / UTF-8 decoding

Models `Buffer.from(data, 'base64').toString('utf8')` from
`extractEmailBody`.  Node's base64 decoder ignores characters outside the
(standard or URL-safe) alphabet, including padding, and decodes trailing
groups of 2 or 3 sextets to 1 or 2 bytes. -/

/-- Value of one base64 alphabet character (standard and URL-safe), `none` for
characters Node's decoder skips. -/
def b64Val (c : Char) : Option Nat :=
  if 'A' ≤ c ∧ c ≤ 'Z' then some (c.toNat - 65)
  else if 'a' ≤ c ∧ c ≤ 'z' then some (c.toNat - 97 + 26)
  else if '0' ≤ c ∧ c ≤ '9' then some (c.toNat - 48 + 52)
  else if c = '+' ∨ c = '-' then some 62
  else if c = '/' ∨ c = '_' then some 63
  else none

/-- Regroup sextets into bytes (4 sextets to 3 bytes, with Node's handling of
a trailing partial group). -/
def b64Bytes : List Nat → List Nat
  | a :: b :: c :: d :: rest =>
      (a * 4 + b / 16) :: ((b % 16) * 16 + c / 4) :: ((c % 4) * 64 + d) :: b64Bytes rest
  | [a, b] => [a * 4 + b / 16]
  | [a, b, c] => [a * 4 + b / 16, (b % 16) * 16 + c / 4]
  | _ => []

/-- Is a byte a UTF-8 continuation byte? -/
def isCont (b : Nat) : Bool :=
  0x80 ≤ b ∧ b < 0xC0

/-- One decoded scalar or the replacement character, as Node's utf8 decoding
produces for invalid sequences. -/
def chOf (n : Nat) : Char :=
  if n < 0xD800 ∨ (0xDFFF < n ∧ n < 0x110000) then Char.ofNat n else '�'

/-- Fuelled UTF-8 decoder (fuel bounds the number of bytes consumed; callers
pass the list length, and every step consumes at least one byte). -/
def utf8DecodeAux : Nat → List Nat → List Char
  | 0, _ => []
  | _ + 1, [] => []
  | fuel + 1, b :: rest =>
    if b < 0x80 then chOf b :: utf8DecodeAux fuel rest
    else if 0xC2 ≤ b ∧ b ≤ 0xDF then
      match rest with
      | c :: r =>
        if isCont c then chOf ((b - 0xC0) * 0x40 + (c - 0x80)) :: utf8DecodeAux fuel r
        else '�' :: utf8DecodeAux fuel rest
      | [] => ['�']
    else if 0xE0 ≤ b ∧ b ≤ 0xEF then
      match rest with
      | c :: d :: r =>
        if isCont c ∧ isCont d then
          chOf ((b - 0xE0) * 0x1000 + (c - 0x80) * 0x40 + (d - 0x80)) :: utf8DecodeAux fuel r
        else '�' :: utf8DecodeAux fuel rest
      | _ => ['�']
    else if 0xF0 ≤ b ∧ b ≤ 0xF4 then
      match rest with
      | c :: d :: e :: r =>
        if isCont c ∧ isCont d ∧ isCont e then
          chOf ((b - 0xF0) * 0x40000 + (c - 0x80) * 0x1000 + (d - 0x80) * 0x40 + (e - 0x80))
            :: utf8DecodeAux fuel r
        else '�' :: utf8DecodeAux fuel rest
      | _ => ['�']
    else '�' :: utf8DecodeAux fuel rest

/-- `Buffer.from(s, 'base64').toString('utf8')`. -/
def b64ToUtf8 (s : String) : String :=
  let bytes := b64Bytes (s.data.filterMap b64Val)
  String.mk (utf8DecodeAux bytes.length bytes)

/-! ### Gmail message structure and `extractEmailBody` (src/index.js) -/

/-- One MIME part of a Gmail message payload: `mimeType`, `headers`,
`body.data` (inline base64 payload, absent for container parts) and nested
`parts`. -/
inductive MimePart where
  | node (mimeType : String) (headers : List (String × String))
      (bodyData : Option String) (parts : List MimePart)
deriving Repr

def MimePart.mimeType : MimePart → String
  | .node m _ _ _ => m

def MimePart.headers : MimePart → List (String × String)
  | .node _ h _ _ => h

def MimePart.bodyData : MimePart → Option String
  | .node _ _ b _ => b

def MimePart.parts : MimePart → List MimePart
  | .node _ _ _ p => p

/-- A Gmail message as returned by `users.messages.get`: `msg.data.payload`.
The Gmail API always returns a payload on a fetched message, so the
`if (!payload) return ''` guard of `extractEmailBody` is the only use of
absence and is folded into the caller below. -/
structure GmailMsg where
  payload : MimePart
deriving Repr

mutual

/-- The recursive `findTextContent` of `extractEmailBody`: a part with truthy
`body.data` of mimeType text/plain or text/html decodes it; otherwise the
nested parts are searched depth-first, skipping parts whose recursive result
is the (falsy) empty string. -/
def findTextContent : MimePart → String
  | .node mt _ bd parts =>
    if mt = "text/plain" ∧ strTruthy bd then b64ToUtf8 (bd.getD "")
    else if mt = "text/html" ∧ strTruthy bd then b64ToUtf8 (bd.getD "")
    else firstTextContent parts
termination_by structural p => p

/-- Depth-first search over sibling parts, returning the first truthy
(non-empty) recursive result, and `""` when none is found. -/
def firstTextContent : List MimePart → String
  | [] => ""
  | p :: ps =>
    let c := findTextContent p
    if c ≠ "" then c else firstTextContent ps
termination_by structural l => l

end

/-- `extractEmailBody(message)`: walk `message.data.payload`. -/
def extractEmailBody (m : GmailMsg) : String :=
  findTextContent m.payload

/-- `msg.data.payload.headers.find(h => h.name === name)?.value || ''`. -/
def headerValue (m : GmailMsg) (name : String) : String :=
  jsOrStr ((m.payload.headers.find? (fun h => h.1 = name)).map (·.2)) ""

/-! ### Idempotency ledger: `checkAndMarkMessageProcessed` (src/deduplication.js,
reproduced in src/README.md)

The Firestore `processed_messages` collection is modelled by the list of
message ids that have a record (the record's timestamp/ttl fields play no role
in the claims).  `docRef.create` is conditional: it fails with gRPC code 6
(ALREADY_EXISTS) when a record exists; other storage failures are injected
through the `fault` argument. -/

/-- A JS error as inspected by the source: `e.code` (gRPC / HTTP code) and
`e.response?.status` (HTTP status of a Gmail API error). -/
structure ApiErr where
  code : Option Nat := none
  status : Option Nat := none
deriving Repr, DecidableEq

/-- `docRef.create(...)` on the `processed_messages` collection: conditional
create-if-absent; `fault` injects a storage failure with the given code. -/
def firestoreCreate (ledger : List String) (fault : Option Nat) (mid : String) :
    Except ApiErr Unit × List String :=
  match fault with
  | some c => (.error ⟨some c, none⟩, ledger)
  | none =>
    if mid ∈ ledger then (.error ⟨some 6, none⟩, ledger)
    else (.ok (), mid :: ledger)

/-- `checkAndMarkMessageProcessed(firestore, messageId)`: try the conditional
create; `true` on success, `false` when the create failed with code 6
(ALREADY_EXISTS); any other error is re-thrown. -/
def checkAndMarkMessageProcessed (ledger : List String) (fault : Option Nat)
    (mid : String) : Except ApiErr Bool × List String :=
  match firestoreCreate ledger fault mid with
  | (.ok _, l) => (.ok true, l)
  | (.error e, l) => if e.code = some 6 then (.ok false, l) else (.error e, l)

/-! ### Regex helpers of `handleTransaction` -/

/-- Test of `/from:.*nationalgridus\.com/` (resp. sunrun) on the lowercased
body: some line (regex `.` does not cross line terminators) contains `from:`
followed, later on the same line, by the domain.  It suffices to look after
the first occurrence of `from:` on each line. -/
def fromDomTest (body dom : String) : Bool :=
  (splitLines body).any fun line =>
    match findFromIdx line.data with
    | some rest => sContains (String.mk rest) dom
    | none => false
where
  /-- Split on the line terminators JS regex `.` refuses to match. -/
  splitLines (s : String) : List String :=
    splitBy (fun c => c = '\n' ∨ c = '\r' ∨ c = ' ' ∨ c = ' ') s
  /-- The characters following the first occurrence of `from:`. -/
  findFromIdx : List Char → Option (List Char)
  | [] => none
  | c :: cs =>
    if ('f' :: 'r' :: 'o' :: 'm' :: ':' :: []).isPrefixOf (c :: cs) then
      some ((c :: cs).drop 5)
    else findFromIdx cs

/-- Span of `[\d,]+` characters. -/
def amtChar (c : Char) : Bool :=
  c.isDigit ∨ c = ','

/-- After the greedy `[\d,]+`, the optional `(?:\.\d{2})?` tail.  Backtracking
into the greedy span can never help, because characters given back are digits
or commas and `\.` cannot match them. -/
def amtDecimalTail : List Char → List Char
  | '.' :: d₁ :: d₂ :: _ => if d₁.isDigit ∧ d₂.isDigit then ['.', d₁, d₂] else []
  | _ => []

/-- `subject.match(/\$([\d,]+(?:\.\d{2})?)/)`: the capture group of the first
match, scanning left to right for a `$` followed by at least one digit or
comma. -/
def amountMatch : List Char → Option String
  | [] => none
  | '$' :: rest =>
    let ds := rest.takeWhile amtChar
    if ds = [] then amountMatch rest
    else some (String.mk (ds ++ amtDecimalTail (rest.dropWhile amtChar)))
  | _ :: rest => amountMatch rest

/-- `amountMatch[1].replace(/,/g, '')`. -/
def stripCommas (s : String) : String :=
  String.mk (s.data.filter (· ≠ ','))

/-- Value of a digit string (empty string is 0, as in `parseFloat('.25')`). -/
def digitsVal (l : List Char) : Nat :=
  l.foldl (fun acc c => acc * 10 + (c.toNat - 48)) 0

/-- `parseFloat` on the comma-stripped capture (shape `digits* ('.' digit
digit)?` by construction of the regex), in integer cents; `none` models `NaN`
(empty string).  Amounts are exact cents, so `Nat` cents represents the JS
float exactly for the comparisons and formatting the source performs. -/
def parseFloatCents (s : String) : Option Nat :=
  match s.data.splitOn '.' with
  | [i] => if i = [] then none else some (digitsVal i * 100)
  | [i, f] => some (digitsVal i * 100 + digitsVal f)
  | _ => none

/-- JS number-to-string for an exact-cents value, as interpolated into the
Eversource title template. -/
def jsNumStr (cents : Nat) : String :=
  if cents % 100 = 0 then toString (cents / 100)
  else if cents % 10 = 0 then toString (cents / 100) ++ "." ++ toString (cents % 100 / 10)
  else toString (cents / 100) ++ "." ++
    (if cents % 100 < 10 then "0" else "") ++ toString (cents % 100)

/-! ### Remote state, call trace and environment -/

/-- Event start/originalStartTime as returned by the Calendar API: all-day
events carry `date`, timed events carry `dateTime` (the field the code reads
after `date` turns out falsy). -/
structure EvTime where
  date : Option String := none
  dateTime : String := ""
deriving Repr, DecidableEq

/-- A calendar from `calendarList.list`. -/
structure CalEntry where
  id : String
  summary : String
deriving Repr, DecidableEq

/-- One (recurrence-expanded) event occurrence.  `monthKey` is the calendar
month (year * 12 + month) the occurrence falls in; `events.list` with
`singleEvents: true` and the month window computed by the code returns exactly
the occurrences of that month.  `extra` stands for all event fields the code
never touches. -/
structure CalEvent where
  id : String
  calId : String
  summary : String
  start : EvTime
  originalStartTime : Option EvTime := none
  monthKey : Int
  extra : String := ""
deriving Repr, DecidableEq

/-- The body of an `events.patch` request; absent fields are not sent and
leave the remote field unchanged.  The code only ever sends `summary`. -/
structure PatchBody where
  summary : Option String := none
  start : Option EvTime := none
  extra : Option String := none
deriving Repr, DecidableEq

/-- In-memory calendar service state. -/
structure CalState where
  calendars : List CalEntry := []
  events : List CalEvent := []
deriving Repr, DecidableEq

/-- A Drive folder (`mimeType application/vnd.google-apps.folder`); `parent =
none` means the root (a file created with `parents: []` lands in My Drive). -/
structure DFolder where
  id : String
  name : String
  parent : Option String
  trashed : Bool := false
deriving Repr, DecidableEq

/-- A Drive file. -/
structure DFile where
  id : String
  name : String
  parent : Option String
  content : String
  trashed : Bool := false
deriving Repr, DecidableEq

/-- In-memory Drive service state; `nextId` feeds fresh ids for created
folders and files. -/
structure DriveState where
  folders : List DFolder := []
  files : List DFile := []
  nextId : Nat := 0
deriving Repr, DecidableEq

/-- An artifact to archive: `{ buffer, fileName }`. -/
structure FileData where
  buffer : String
  fileName : String
deriving Repr, DecidableEq

/-- One remote call performed by the handler, in order.  Drive list queries
are recorded structurally (name, parent, non-trashed, and for folder queries
the folder mimeType) rather than as the interpolated query string. -/
inductive Call where
  | checkpointRead
  | checkpointWrite (v : Nat)
  | historyList (startId : Nat)
  | getProfile
  | ledgerCreate (mid : String)
  | getMessage (mid : String)
  | markRead (mid : String)
  | calListCalendars
  | calListEvents (calId : String) (monthKey : Int)
  | calDelete (calId evtId : String) (reportedDate : String)
  | calPatch (calId evtId : String) (body : PatchBody)
  | driveFolderQuery (name : String) (parent : Option String)
  | driveFileQuery (name : String) (parent : Option String)
  | driveCreateFolder (id name : String) (parent : Option String)
  | driveCreateFile (id name : String) (parent : Option String)
  | driveUpdateFile (id : String)
  | ngGetBill
  | sunrunGetBill
deriving Repr, DecidableEq

/-- Mutable world threaded through an invocation: the trace of remote calls
made so far plus the state of the stateful services. -/
structure World where
  trace : List Call := []
  cal : CalState := {}
  drive : DriveState := {}
  ledger : List String := []
deriving Repr

/-- Record one remote call. -/
def emit (c : Call) (w : World) : World :=
  { w with trace := w.trace ++ [c] }

/-- Environment of one invocation: configuration, the stored checkpoint, and
the behaviour of every remote endpoint that can fail (faults are `some` error
to throw).  `toIsoDate` models `s => new Date(s).toISOString().split('T')[0]`,
the JS date library pipeline.  `nowMonthIndex` is `year * 12 + month` of the
invocation time. -/
structure Env where
  calendarName : String := "cal"
  nowMonthIndex : Int := 0
  toIsoDate : String → String := fun s => (splitBy (fun c => c = 'T') s).headD s
  checkpoint : Option Nat := none
  historyResp : Except ApiErr (Option (List (List String))) := .ok none
  profileHistoryId : Nat := 0
  ledgerFault : String → Option Nat := fun _ => none
  getMessage : String → Except ApiErr GmailMsg := fun _ => .error {}
  markReadResp : String → Except ApiErr Unit := fun _ => .ok ()
  ngBill : Except ApiErr FileData := .error {}
  sunrunBill : Except ApiErr (Option FileData) := .error {}
  listCalsFault : Option ApiErr := none
  listEventsFault : Option ApiErr := none
  deleteFault : String → Option ApiErr := fun _ => none
  patchFault : String → Option ApiErr := fun _ => none

/-! ### `processCalendarEvents` (src/index.js lines 550-618) -/

/-- `{ action, monthOffset = 0, title }` (the options object of
`processCalendarEvents`; `action` is the string tag the code compares). -/
structure CalOpts where
  action : String
  monthOffset : Int := 0
  title : Option String := none
deriving Repr, DecidableEq

/-- `originalStartTime || start` — an object, when present, is truthy. -/
def jsOrTime : Option EvTime → EvTime → EvTime
  | some t, _ => t
  | none, s => s

/-- `actualStart.date || new Date(actualStart.dateTime).toISOString().split('T')[0]`. -/
def reportedDate (env : Env) (t : EvTime) : String :=
  jsOrStr t.date (env.toIsoDate t.dateTime)

/-- `events.delete`: remove the event with the given id. -/
def applyDelete (evId : String) (st : CalState) : CalState :=
  { st with events := st.events.filter (fun e => e.id ≠ evId) }

/-- Remote semantics of `events.patch`: fields present in the request body
overwrite the stored event, absent fields are untouched. -/
def applyPatch (body : PatchBody) (e : CalEvent) : CalEvent :=
  { e with summary := body.summary.getD e.summary,
           start := body.start.getD e.start,
           extra := body.extra.getD e.extra }

/-- `events.patch` against the state: the event with the request's id is
patched. -/
def applyPatchState (evId : String) (body : PatchBody) (st : CalState) : CalState :=
  { st with events := st.events.map (fun e => if e.id = evId then applyPatch body e else e) }

/-- The `for (const e of events)` loop of `processCalendarEvents`, over the
filtered snapshot; an error thrown by `events.delete`/`events.patch` aborts
the loop and carries the world as mutated so far to the enclosing catch. -/
def calEventsLoop (env : Env) (calId : String) (opts : CalOpts) :
    List CalEvent → World → Except (ApiErr × World) World
  | [], w => .ok w
  | e :: rest, w =>
    if opts.action = "delete" then
      let actualStart := jsOrTime e.originalStartTime e.start
      let eventDate := reportedDate env actualStart
      let w := emit (.calDelete calId e.id eventDate) w
      match env.deleteFault e.id with
      | some err => .error (err, w)
      | none => calEventsLoop env calId opts rest { w with cal := applyDelete e.id w.cal }
    else if opts.action = "patch" then
      let body : PatchBody := { summary := opts.title }
      let w := emit (.calPatch calId e.id body) w
      match env.patchFault e.id with
      | some err => .error (err, w)
      | none => calEventsLoop env calId opts rest { w with cal := applyPatchState e.id body w.cal }
    else
      calEventsLoop env calId opts rest w

/-- The body of the `try` block of `processCalendarEvents`: list calendars,
resolve the configured calendar by exact summary match, list the month's
events, filter by title, then delete/patch each.  The month window
`Date(y, m + offset, 1) .. Date(y, m + offset + 1, 0, 23:59:59)` spans exactly
the calendar month with index `nowMonthIndex + monthOffset` (JS `Date`
normalises month overflow), so the window is identified by that index.
Errors escape to the caller with the world as mutated so far. -/
def runCalendarEvents (env : Env) (pfx : String) (opts : CalOpts) (w : World) :
    Except (ApiErr × World) (Bool × World) :=
  let monthKey := env.nowMonthIndex + opts.monthOffset
  let w := emit .calListCalendars w
  match env.listCalsFault with
  | some err => .error (err, w)
  | none =>
    match w.cal.calendars.find? (fun c => c.summary = env.calendarName) with
    | none => .ok (false, w)
    | some targetCal =>
      let w := emit (.calListEvents targetCal.id monthKey) w
      match env.listEventsFault with
      | some err => .error (err, w)
      | none =>
        let listed := w.cal.events.filter (fun e => e.calId = targetCal.id ∧ e.monthKey = monthKey)
        let events := listed.filter (fun e => sStartsWith e.summary pfx)
        if events.isEmpty then .ok (false, w)
        else (calEventsLoop env targetCal.id opts events w).map (fun w' => (true, w'))

/-- `processCalendarEvents(eventPrefix, { action, monthOffset, title })`: the
try block above with its catch-all, which logs and returns `false`. -/
def processCalendarEvents (env : Env) (pfx : String) (opts : CalOpts) (w : World) :
    Bool × World :=
  match runCalendarEvents env pfx opts w with
  | .ok r => r
  | .error (_, w') => (false, w')

/-! ### `uploadToDrive` and `#findOrCreateFolder` (src/index.js lines 431-526) -/

/-- The folder-query predicate: `mimeType = folder and name = ... and trashed
= false and parent in parents` (with `'root' in parents` when `parentId` is
null). -/
def folderQueryFind (name : String) (parentId : Option String) (fs : List DFolder) :
    Option DFolder :=
  fs.find? (fun f => f.name = name ∧ f.parent = parentId ∧ f.trashed = false)

/-- `#findOrCreateFolder(name, parentId)`: find by name and parent, create
only on miss (`parents: parentId ? [parentId] : []`). -/
def findOrCreateFolder (name : String) (parentId : Option String) (w : World) :
    String × World :=
  let w := emit (.driveFolderQuery name parentId) w
  match folderQueryFind name parentId w.drive.folders with
  | some f => (f.id, w)
  | none =>
    let fid := "fld" ++ toString w.drive.nextId
    let folder : DFolder := { id := fid, name := name, parent := parentId }
    let w := emit (.driveCreateFolder fid name parentId) w
    (fid, { w with drive := { w.drive with
              folders := w.drive.folders ++ [folder],
              nextId := w.drive.nextId + 1 } })

/-- The `for (const folderName of folders)` resolution loop of
`uploadToDrive`, starting from `parentId = null` (the root). -/
def resolveFolders (names : List String) (parentId : Option String) (w : World) :
    Option String × World :=
  match names with
  | [] => (parentId, w)
  | n :: rest =>
    let r := findOrCreateFolder n parentId w
    resolveFolders rest (some r.1) r.2

/-- The file-query predicate: `name = ... and parentId in parents and trashed
= false`.  (`parentId` is never null here: the path split always yields at
least one folder level.) -/
def fileParentMatch (parentId : Option String) (f : DFile) : Bool :=
  match parentId with
  | some p => f.parent = some p
  | none => false

/-- See `fileParentMatch` for the `in parents` clause. -/
def fileQueryFind (name : String) (parentId : Option String) (fs : List DFile) :
    Option DFile :=
  fs.find? (fun f => f.name = name ∧ fileParentMatch parentId f ∧ f.trashed = false)

/-- `folderPath.split('/')` (JS split on a one-character separator; always
yields at least one element). -/
def splitSlash (s : String) : List String :=
  splitBy (fun c => c = '/') s

/-- `uploadToDrive(fileData, folderPath)`: resolve/create the '/'-delimited
folder path one level at a time, then update the same-named file in the leaf
folder in place, or create a new one.  Returns the id of the file written. -/
def uploadToDrive (fd : FileData) (folderPath : String) (w : World) : String × World :=
  let folders := splitSlash folderPath
  let r := resolveFolders folders none w
  let parentId := r.1
  let w := emit (.driveFileQuery fd.fileName parentId) r.2
  match fileQueryFind fd.fileName parentId w.drive.files with
  | some f =>
    let w := emit (.driveUpdateFile f.id) w
    (f.id, { w with drive := { w.drive with
        files := w.drive.files.map (fun x =>
          if x.id = f.id then { x with content := fd.buffer } else x) } })
  | none =>
    let fid := "fil" ++ toString w.drive.nextId
    let file : DFile := { id := fid, name := fd.fileName, parent := parentId,
                          content := fd.buffer }
    let w := emit (.driveCreateFile fid fd.fileName parentId) w
    (fid, { w with drive := { w.drive with
              files := w.drive.files ++ [file],
              nextId := w.drive.nextId + 1 } })

/-! ### `handleTransaction` (src/index.js lines 239-423)

The guard of each rule in the fixed-priority chain, on the lowercased sender
(`from.toLowerCase()`), subject and body. -/

def ngGuard (sender subj body : String) : Bool :=
  (sContains sender "nationalgridus.com" ∨ fromDomTest body "nationalgridus.com") ∧
    sContains subj "national grid bill"

def sunrunGuard (sender subj body : String) : Bool :=
  (sContains sender "sunrun.com" ∨ fromDomTest body "sunrun.com") ∧
    sContains subj "sunrun bill"

def capOneGuard (sender subj : String) : Bool :=
  sContains sender "capitalone.com" ∧ sContains subj "withdrawal notice"

def amexGuard (sender subj : String) : Bool :=
  sContains sender "americanexpress.com" ∧ sContains subj "received your payment"

def chaseCardGuard (sender subj : String) : Bool :=
  sContains sender "chase.com" ∧ sContains subj "your credit card payment is scheduled"

def chaseMortgageGuard (sender subj : String) : Bool :=
  sContains sender "chase.com" ∧ sContains subj "you scheduled your mortgage payment"

def comcastGuard (sender subj : String) : Bool :=
  sContains sender "chase.com" ∧ sContains subj "transaction with comcast / xfinity"

def eversourceGuard (sender subj : String) : Bool :=
  sContains sender "chase.com" ∧ sContains subj "transaction with spi*eversource"

/-- The four Capital One body phrases, in the order the code tests them. -/
def capOneBodyATT (body : String) : Bool := sContains body "att has initiated"
def capOneBodyLowes (body : String) : Bool := sContains body "lowes has initiated"
def capOneBodyEastern (body : String) : Bool := sContains body "eastern bank has initiated"
def capOneBodySunrun (body : String) : Bool := sContains body "sunrun has initiated"

/-- `handleTransaction({ from, subject, message })`: the fixed-priority rule
chain.  National Grid / Sunrun branches catch their own bill-fetch errors and
return `false`; calendar branches return `true` after dispatching (whatever
`processCalendarEvents` returned); the Comcast and Eversource branches first
extract and validate the dollar amount from the (original-case) subject. -/
def handleTransaction (env : Env) (w : World) (fromAddr subject : String) (msg : GmailMsg) :
    Bool × World :=
  let sender := sLower fromAddr
  let subj := sLower subject
  let body := sLower (extractEmailBody msg)
  if ngGuard sender subj body then
    let w := emit .ngGetBill w
    match env.ngBill with
    | .error _ => (false, w)
    | .ok billData =>
      (true, (uploadToDrive billData "House/National Grid Bills" w).2)
  else if sunrunGuard sender subj body then
    let w := emit .sunrunGetBill w
    match env.sunrunBill with
    | .error _ => (false, w)
    | .ok none => (false, w)
    | .ok (some billData) =>
      (true, (uploadToDrive billData "House/Sunrun Bills" w).2)
  else if capOneGuard sender subj then
    if capOneBodyATT body then
      (true, (processCalendarEvents env "Pay AT&T" ⟨"delete", 0, none⟩ w).2)
    else if capOneBodyLowes body then
      (true, (processCalendarEvents env "Pay Lowes" ⟨"delete", 0, none⟩ w).2)
    else if capOneBodyEastern body then
      (true, (processCalendarEvents env "Pay Eastern Savings" ⟨"delete", 0, none⟩ w).2)
    else if capOneBodySunrun body then
      (true, (processCalendarEvents env "Sunrun withdrawal" ⟨"delete", 0, none⟩ w).2)
    else (false, w)
  else if amexGuard sender subj then
    (true, (processCalendarEvents env "Pay Amex" ⟨"delete", 1, none⟩ w).2)
  else if chaseCardGuard sender subj then
    (true, (processCalendarEvents env "Pay Chase" ⟨"delete", 1, none⟩ w).2)
  else if chaseMortgageGuard sender subj then
    (true, (processCalendarEvents env "Pay mortgage" ⟨"delete", 1, none⟩ w).2)
  else if comcastGuard sender subj then
    match amountMatch subject.data with
    | none => (false, w)
    | some g =>
      match parseFloatCents (stripCommas g) with
      | none => (false, w)
      | some cents =>
        if cents < 100 * 100 ∨ 200 * 100 < cents then (false, w)
        else
          (true, (processCalendarEvents env "Comcast / Xfinity Withdrawal"
            ⟨"delete", 0, none⟩ w).2)
  else if eversourceGuard sender subj then
    match amountMatch subject.data with
    | none => (false, w)
    | some g =>
      match parseFloatCents (stripCommas g) with
      | none => (false, w)
      | some cents =>
        (true, (processCalendarEvents env "Pay Gas Bill"
          ⟨"patch", 0, some ("Gas Bill - $" ++ jsNumStr cents)⟩ w).2)
  else (false, w)

/-! ### `processGmailHistory` (src/index.js lines 169-231) -/

/-- The body of the per-message `try` of `processGmailHistory`: claim the id
in the ledger (a thrown ledger error, a thrown `messages.get` error — 404 or
otherwise — and a thrown `messages.modify` error are all caught by the
per-message catch, which logs and continues). -/
def perMessage (env : Env) (mid : String) (w : World) : World :=
  let w := emit (.ledgerCreate mid) w
  let cr := checkAndMarkMessageProcessed w.ledger (env.ledgerFault mid) mid
  let w := { w with ledger := cr.2 }
  match cr.1 with
  | .error _ => w
  | .ok false => w
  | .ok true =>
    let w := emit (.getMessage mid) w
    match env.getMessage mid with
    | .error _ => w
    | .ok msg =>
      let subject := headerValue msg "Subject"
      let fromAddr := headerValue msg "From"
      let r := handleTransaction env w fromAddr subject msg
      let wasProcessed := r.1
      let w := r.2
      if wasProcessed then
        let w := emit (.markRead mid) w
        match env.markReadResp mid with
        | .error _ => w
        | .ok _ => w
      else w

/-- The nested `for` loops over `history[].messagesAdded[].message.id`,
flattened in arrival order. -/
def msgLoop (env : Env) : List String → World → World
  | [], w => w
  | mid :: rest, w => msgLoop env rest (perMessage env mid w)

/-- All message ids of a history response, in arrival order. -/
def historyIds (hist : List (List String)) : List String :=
  hist.flatMap (fun x => x)

/-- `processGmailHistory(startHistoryId)`: list the history; no `history` key
means `false` ("no changes"); a thrown listing error propagates to the
caller; otherwise process every added message and return `true`. -/
def processGmailHistory (env : Env) (startId : Nat) (w : World) :
    Except ApiErr Bool × World :=
  let w := emit (.historyList startId) w
  match env.historyResp with
  | .error e => (.error e, w)
  | .ok none => (.ok false, w)
  | .ok (some hist) => (.ok true, msgLoop env (historyIds hist) w)

/-! ### `handleEvent` (src/index.js lines 90-161) -/

/-- The decoded Pub/Sub payload `{ emailAddress, historyId }` (payload
decoding itself is I/O upstream of everything the claims mention). -/
structure Payload where
  emailAddress : Option String := none
  historyId : Nat
deriving Repr, DecidableEq

/-- Result of one invocation: the final world and the checkpoint value after
the invocation (the stored `lastHistoryId`, starting from
`env.checkpoint`). -/
structure HResult where
  world : World
  checkpoint : Option Nat
deriving Repr

/-- `handleEvent(cloudEvent)` from the decoded payload on: read the
checkpoint; skip when the stored value is truthy and `newHistoryId <=
lastHistoryId`; otherwise sync from `lastHistoryId || newHistoryId`.  On
success persist the notification's historyId; on a thrown Gmail error with
HTTP status 400 reset the checkpoint to the freshly fetched profile head; any
other error is logged and swallowed (the checkpoint is left alone).  The
outer catch-all of the source makes the function total. -/
def handleEvent (env : Env) (p : Payload) (w : World) : HResult :=
  let w := emit .checkpointRead w
  let skip : Bool := match env.checkpoint with
    | some l => decide (l ≠ 0) && decide (p.historyId ≤ l)
    | none => false
  if skip then { world := w, checkpoint := env.checkpoint }
  else
    let startId := jsOrNat env.checkpoint p.historyId
    let pr := processGmailHistory env startId w
    let w := pr.2
    match pr.1 with
    | .ok false => { world := w, checkpoint := env.checkpoint }
    | .ok true =>
      let w := emit (.checkpointWrite p.historyId) w
      { world := w, checkpoint := some p.historyId }
    | .error e =>
      if e.status = some 400 then
        let w := emit .getProfile w
        let w := emit (.checkpointWrite env.profileHistoryId) w
        { world := w, checkpoint := some env.profileHistoryId }
      else { world := w, checkpoint := env.checkpoint }

/-- The world carried by either outcome of a `try`-block mirror. -/
def exWorld : Except (ApiErr × World) World → World
  | .ok w => w
  | .error (_, w) => w

/-- The world carried by either outcome of `runCalendarEvents`. -/
def runWorld : Except (ApiErr × World) (Bool × World) → World
  | .ok (_, w) => w
  | .error (_, w) => w

/-- Environment for the C4 witness: two messages in the batch; the first
one's detail fetch throws a 404 ("message no longer exists"). -/
def env4 : Env :=
  { historyResp := .ok (some [["m1"], ["m2"]]),
    getMessage := fun mid =>
      if mid = "m1" then .error ⟨some 404, none⟩
      else .ok ⟨.node "text/plain" [("From", "a@b.c"), ("Subject", "hello")] none []⟩ }

/-- Environment for the C9 witness: every calendar-list call fails with a
500, and the history batch carries one message. -/
def env9 : Env :=
  { listCalsFault := some ⟨none, some 500⟩,
    historyResp := .ok (some [["m1"]]) }

/-- Capital One withdrawal notice whose body names ATT. -/
def msg5att : GmailMsg :=
  ⟨.node "text/plain" [] (some "QVRUIGhhcyBpbml0aWF0ZWQ=") []⟩

/-- Capital One withdrawal notice whose body names no recognised merchant
("Unknown Merchant has initiated"). -/
def msg5unknown : GmailMsg :=
  ⟨.node "text/plain" [] (some "VW5rbm93biBNZXJjaGFudCBoYXMgaW5pdGlhdGVk") []⟩

/-- Calendar used by the C8 and C10 witnesses (the default `Env` resolves
calendar name `cal`). -/
def cal8 : CalEntry := ⟨"calA", "cal"⟩

/-- A recurring-instance event with `originalStartTime` set to a date earlier
than its current start. -/
def ev8a : CalEvent :=
  { id := "ev1", calId := "calA", summary := "Pay Amex March",
    start := { date := some "2026-03-05", dateTime := "" },
    originalStartTime := some { date := some "2026-03-03", dateTime := "" },
    monthKey := 1, extra := "room 4" }

/-- A plain event with no `originalStartTime`. -/
def ev8b : CalEvent :=
  { id := "ev2", calId := "calA", summary := "Pay Amex again",
    start := { date := some "2026-03-07", dateTime := "" },
    originalStartTime := none, monthKey := 1, extra := "" }

/-- World holding the witnesses' calendar and events. -/
def w8 : World := { cal := { calendars := [cal8], events := [ev8a, ev8b] } }

/-- Artifact used by the C7 witness. -/
def fd7 : FileData := ⟨"PDFDATA", "Bill.pdf"⟩

/-! ### Trace monotonicity

Every embedded operation only appends to the call trace; these lemmas let
membership of an emitted call survive to the end of an invocation. -/

theorem trace_emit (c : Call) (w : World) : w.trace <+: (emit c w).trace :=
  ⟨[c], rfl⟩

theorem trace_findOrCreateFolder (n : String) (p : Option String) (w : World) :
    w.trace <+: (findOrCreateFolder n p w).2.trace := by
  simp only [findOrCreateFolder, emit]
  split
  · exact List.prefix_append _ _
  · exact (List.prefix_append w.trace _).trans (List.prefix_append _ _)

theorem trace_resolveFolders (names : List String) :
    ∀ (p : Option String) (w : World), w.trace <+: (resolveFolders names p w).2.trace := by
  induction names with
  | nil => intro p w; exact List.prefix_refl _
  | cons n rest ih =>
    intro p w
    have h₁ := trace_findOrCreateFolder n p w
    have h₂ := ih (some (findOrCreateFolder n p w).1) (findOrCreateFolder n p w).2
    refine h₁.trans ?_
    simpa [resolveFolders] using h₂

theorem trace_uploadToDrive (fd : FileData) (path : String) (w : World) :
    w.trace <+: (uploadToDrive fd path w).2.trace := by
  have h₁ := trace_resolveFolders (splitSlash path) none w
  refine h₁.trans ?_
  simp only [uploadToDrive, emit]
  split <;>
    exact (List.prefix_append (resolveFolders (splitSlash path) none w).2.trace _).trans
      (List.prefix_append _ _)

theorem trace_calEventsLoop (env : Env) (calId : String) (opts : CalOpts) :
    ∀ (ms : List CalEvent) (w : World),
      w.trace <+: (exWorld (calEventsLoop env calId opts ms w)).trace := by
  intro ms
  induction ms with
  | nil => intro w; exact List.prefix_refl _
  | cons e rest ih =>
    intro w
    unfold calEventsLoop
    by_cases hd : opts.action = "delete"
    · simp only [hd, if_true]
      have h₁ : w.trace <+: (emit (Call.calDelete calId e.id
          (reportedDate env (jsOrTime e.originalStartTime e.start))) w).trace :=
        trace_emit _ _
      cases env.deleteFault e.id
      · exact h₁.trans (ih { emit (Call.calDelete calId e.id
          (reportedDate env (jsOrTime e.originalStartTime e.start))) w with
          cal := applyDelete e.id (emit (Call.calDelete calId e.id
            (reportedDate env (jsOrTime e.originalStartTime e.start))) w).cal })
      · exact h₁
    · simp only [hd, if_false]
      by_cases hp : opts.action = "patch"
      · simp only [hp, if_true]
        have h₁ : w.trace <+: (emit (Call.calPatch calId e.id
            { summary := opts.title }) w).trace :=
          trace_emit _ _
        cases env.patchFault e.id
        · exact h₁.trans (ih { emit (Call.calPatch calId e.id
            { summary := opts.title }) w with
            cal := applyPatchState e.id { summary := opts.title }
              (emit (Call.calPatch calId e.id { summary := opts.title }) w).cal })
        · exact h₁
      · simp only [hp, if_false]
        exact ih w

theorem runWorld_map (b : Bool) (x : Except (ApiErr × World) World) :
    runWorld (x.map (fun w' => (b, w'))) = exWorld x := by
  cases x with
  | ok w => rfl
  | error p => cases p; rfl

theorem trace_runCalendarEvents (env : Env) (pfx : String) (opts : CalOpts) (w : World) :
    w.trace <+: (runWorld (runCalendarEvents env pfx opts w)).trace := by
  simp only [runCalendarEvents]
  split
  · exact trace_emit _ _
  · split
    · exact trace_emit _ _
    · split
      · exact (trace_emit _ _).trans (trace_emit _ _)
      · split
        · exact (trace_emit _ _).trans (trace_emit _ _)
        · rw [runWorld_map]
          exact ((trace_emit _ _).trans (trace_emit _ _)).trans (trace_calEventsLoop _ _ _ _ _)

theorem trace_processCalendarEvents (env : Env) (pfx : String) (opts : CalOpts) (w : World) :
    w.trace <+: (processCalendarEvents env pfx opts w).2.trace := by
  have h := trace_runCalendarEvents env pfx opts w
  unfold processCalendarEvents
  cases hr : runCalendarEvents env pfx opts w with
  | ok r => rw [hr] at h; cases r; simpa [runWorld] using h
  | error p => rw [hr] at h; cases p; simpa [runWorld] using h

theorem trace_handleTransaction (env : Env) (w : World) (fromAddr subject : String)
    (msg : GmailMsg) :
    w.trace <+: (handleTransaction env w fromAddr subject msg).2.trace := by
  simp only [handleTransaction]
  repeat' split
  all_goals first
    | exact List.prefix_refl _
    | exact trace_emit _ _
    | exact (trace_emit _ _).trans (trace_uploadToDrive _ _ _)
    | exact trace_processCalendarEvents _ _ _ _

theorem trace_perMessage (env : Env) (mid : String) (w : World) :
    w.trace <+: (perMessage env mid w).trace := by
  simp only [perMessage]
  have h₁ : w.trace <+: (emit (Call.ledgerCreate mid) w).trace := trace_emit _ _
  split
  · exact h₁
  · exact h₁
  · have h₂ : w.trace <+: (emit (Call.getMessage mid)
        { emit (Call.ledgerCreate mid) w with
          ledger := (checkAndMarkMessageProcessed (emit (Call.ledgerCreate mid) w).ledger
            (env.ledgerFault mid) mid).2 }).trace :=
      h₁.trans (List.prefix_append _ _)
    split
    · exact h₂
    · rename_i msg hmsg
      refine h₂.trans ?_
      refine (trace_handleTransaction env _ (headerValue msg "From")
        (headerValue msg "Subject") msg).trans ?_
      split
      · split <;> exact List.prefix_append _ _
      · exact List.prefix_refl _

theorem trace_msgLoop (env : Env) : ∀ (ids : List String) (w : World),
    w.trace <+: (msgLoop env ids w).trace := by
  intro ids
  induction ids with
  | nil => intro w; exact List.prefix_refl _
  | cons mid rest ih =>
    intro w
    exact (trace_perMessage env mid w).trans (ih _)

/-! ### Claims -/

/-- C1: for every message ID, `checkAndMarkMessageProcessed` returns `true`
on the call that creates the record and `false` on every later call with the
same ID (the storage create failing with ALREADY_EXISTS, code 6); any storage
error with a code other than 6 propagates to the caller uncaught and is not
interpreted as a duplicate. -/
theorem claim1_ledger_claim_idempotent (mid : String) (ledger : List String) :
    (mid ∉ ledger →
      checkAndMarkMessageProcessed ledger none mid = (.ok true, mid :: ledger)) ∧
    (∀ later : List String, mid ∈ later →
      checkAndMarkMessageProcessed later none mid = (.ok false, later)) ∧
    (∀ c : Nat, c ≠ 6 → ∀ l : List String,
      checkAndMarkMessageProcessed l (some c) mid = (.error ⟨some c, none⟩, l)) := by
  refine ⟨fun h => ?_, fun later h => ?_, fun c hc l => ?_⟩
  · simp [checkAndMarkMessageProcessed, firestoreCreate, h]
  · simp [checkAndMarkMessageProcessed, firestoreCreate, h]
  · simp [checkAndMarkMessageProcessed, firestoreCreate, hc]

/-- Witness for C1 at a concrete message id: fresh create, duplicate, and a
propagated code-13 storage error. -/
theorem claim1_ledger_claim_idempotent_witness :
    checkAndMarkMessageProcessed [] none "m1" = (.ok true, ["m1"]) ∧
    checkAndMarkMessageProcessed ["m1"] none "m1" = (.ok false, ["m1"]) ∧
    checkAndMarkMessageProcessed ["m1"] (some 13) "m1" = (.error ⟨some 13, none⟩, ["m1"]) :=
  ⟨(claim1_ledger_claim_idempotent "m1" []).1 (by decide),
   (claim1_ledger_claim_idempotent "m1" []).2.1 ["m1"] (by decide),
   (claim1_ledger_claim_idempotent "m1" []).2.2 13 (by decide) ["m1"]⟩

/-- C2 (amended): a notification whose position is `<=` a stored checkpoint
terminates after the checkpoint read with no further remote calls and no
state change, provided the stored checkpoint is nonzero — a stored checkpoint
of `0` is falsy in `if (lastHistoryId && ...)` and disables the staleness
check (see the counterexample). -/
theorem claim2_staleness_skip (env : Env) (p : Payload) (w : World) (c : Nat)
    (hc : env.checkpoint = some c) (hnz : c ≠ 0) (hle : p.historyId ≤ c) :
    handleEvent env p w = { world := emit .checkpointRead w, checkpoint := some c } := by
  simp [handleEvent, hc, hnz, hle]

/-- Witness for C2 at checkpoint 5, notification position 3. -/
theorem claim2_staleness_skip_witness :
    handleEvent { checkpoint := some 5 } { historyId := 3 } {} =
      { world := emit .checkpointRead {}, checkpoint := some 5 } :=
  claim2_staleness_skip { checkpoint := some 5 } { historyId := 3 } {} 5 rfl
    (by decide) (by decide)

/-- Counterexample to C2 as stated: with a checkpoint record present holding
position 0 and a notification also carrying position 0 (position ≤
checkpoint), the handler does not terminate after the checkpoint read — the
JS truthiness test `lastHistoryId && ...` treats the stored 0 as absent and
the invocation goes on to call the Gmail history API. -/
theorem claim2_staleness_skip_counterexample :
    ({ checkpoint := some 0 } : Env).checkpoint = some 0 ∧
    ({ historyId := 0 } : Payload).historyId ≤ 0 ∧
    (handleEvent { checkpoint := some 0 } { historyId := 0 } {}).world.trace ≠
      [Call.checkpointRead] ∧
    (handleEvent { checkpoint := some 0 } { historyId := 0 } {}).world.trace =
      [Call.checkpointRead, Call.historyList 0] := by
  refine ⟨rfl, Nat.le_refl 0, ?_, ?_⟩ <;> decide

/-- The staleness guard of `handleEvent` evaluates to false whenever any
truthy stored checkpoint is strictly older than the notification. -/
theorem skipCond_false (env : Env) (p : Payload)
    (hfresh : ∀ c, env.checkpoint = some c → c ≠ 0 → c < p.historyId) :
    (match env.checkpoint with
      | some l => !decide (l = 0) && decide (p.historyId ≤ l)
      | none => false) = false := by
  cases hc : env.checkpoint with
  | none => rfl
  | some l =>
    by_cases hl : l = 0
    · simp [hl]
    · simp [hl, Nat.not_le.mpr (hfresh l hc hl)]

/-- C3: when the history listing throws the "position invalid" error class
(HTTP status 400) and the invocation is not skipped as stale, `handleEvent`
performs exactly one checkpoint write, whose value is the head position
freshly fetched from the profile, processes no messages (the trace holds no
ledger or message call), and swallows the error. -/
theorem claim3_baseline_reset (env : Env) (p : Payload) (w : World) (e : ApiErr)
    (hresp : env.historyResp = .error e) (h400 : e.status = some 400)
    (hfresh : ∀ c, env.checkpoint = some c → c ≠ 0 → c < p.historyId) :
    (handleEvent env p w).checkpoint = some env.profileHistoryId ∧
    (handleEvent env p w).world.trace = w.trace ++
      [.checkpointRead, .historyList (jsOrNat env.checkpoint p.historyId),
       .getProfile, .checkpointWrite env.profileHistoryId] ∧
    (handleEvent env p w).world.cal = w.cal ∧
    (handleEvent env p w).world.drive = w.drive ∧
    (handleEvent env p w).world.ledger = w.ledger := by
  simp [handleEvent, skipCond_false env p hfresh, processGmailHistory, hresp, h400, emit]

/-- Witness for C3: first-run invocation, history listing fails with status
400, profile head 42. -/
theorem claim3_baseline_reset_witness :
    (handleEvent { historyResp := .error ⟨none, some 400⟩, profileHistoryId := 42 }
        { historyId := 7 } {}).checkpoint = some 42 ∧
    (handleEvent { historyResp := .error ⟨none, some 400⟩, profileHistoryId := 42 }
        { historyId := 7 } {}).world.trace =
      [] ++ [.checkpointRead, .historyList 7, .getProfile, .checkpointWrite 42] :=
  have h := claim3_baseline_reset
    { historyResp := .error ⟨none, some 400⟩, profileHistoryId := 42 }
    { historyId := 7 } {} ⟨none, some 400⟩ rfl rfl
    (fun c hc => by cases hc)
  ⟨h.1, h.2.1⟩

/-- The claim call emitted at the head of `perMessage` is still in the trace
after the rest of the per-message body runs. -/
theorem trace_perMessage_after_claim (env : Env) (mid : String) (w : World) :
    (emit (Call.ledgerCreate mid) w).trace <+: (perMessage env mid w).trace := by
  simp only [perMessage]
  split
  · exact List.prefix_refl _
  · exact List.prefix_refl _
  · have h₂ : (emit (Call.ledgerCreate mid) w).trace <+: (emit (Call.getMessage mid)
        { emit (Call.ledgerCreate mid) w with
          ledger := (checkAndMarkMessageProcessed (emit (Call.ledgerCreate mid) w).ledger
            (env.ledgerFault mid) mid).2 }).trace :=
      List.prefix_append _ _
    split
    · exact h₂
    · rename_i msg hmsg
      refine h₂.trans ?_
      refine (trace_handleTransaction env _ (headerValue msg "From")
        (headerValue msg "Subject") msg).trans ?_
      split
      · split <;> exact List.prefix_append _ _
      · exact List.prefix_refl _

/-- Every id handed to the message loop gets its ledger-claim call, whatever
happens to the messages before it. -/
theorem msgLoop_ledgerCreate_mem (env : Env) : ∀ (ids : List String) (w : World)
    (mid : String), mid ∈ ids →
    Call.ledgerCreate mid ∈ (msgLoop env ids w).trace := by
  intro ids
  induction ids with
  | nil => intro w mid h; cases h
  | cons i rest ih =>
    intro w mid h
    rcases List.mem_cons.mp h with h | h
    · subst h
      have hmem : Call.ledgerCreate mid ∈ (perMessage env mid w).trace :=
        (trace_perMessage_after_claim env mid w).sublist.subset
          (by simp [emit])
      exact (trace_msgLoop env rest (perMessage env mid w)).sublist.subset hmem
    · exact ih (perMessage env i w) mid h

/-- C4: when the history listing yields a batch, every added message in the
batch gets its per-message processing attempt (witnessed by its ledger-claim
call appearing in the trace), regardless of any per-message failure — a 404
on the detail fetch, a ledger storage error, a mark-as-read error — and the
loop itself reports success; no single message's failure aborts the loop. -/
theorem claim4_poison_pill_isolation (env : Env) (w : World) (startId : Nat)
    (hist : List (List String)) (h : env.historyResp = .ok (some hist)) :
    (processGmailHistory env startId w).1 = .ok true ∧
    ∀ mid ∈ historyIds hist,
      Call.ledgerCreate mid ∈ (processGmailHistory env startId w).2.trace := by
  constructor
  · simp [processGmailHistory, h]
  · intro mid hm
    simp only [processGmailHistory, h]
    exact msgLoop_ledgerCreate_mem env (historyIds hist) _ mid hm

/-- Witness for C4: the 404 on the first message does not stop the second
from being processed. -/
theorem claim4_poison_pill_isolation_witness :
    env4.getMessage "m1" = .error ⟨some 404, none⟩ ∧
    (processGmailHistory env4 0 {}).1 = .ok true ∧
    Call.ledgerCreate "m1" ∈ (processGmailHistory env4 0 {}).2.trace ∧
    Call.ledgerCreate "m2" ∈ (processGmailHistory env4 0 {}).2.trace :=
  ⟨rfl,
   (claim4_poison_pill_isolation env4 {} 0 [["m1"], ["m2"]] rfl).1,
   (claim4_poison_pill_isolation env4 {} 0 [["m1"], ["m2"]] rfl).2 "m1" (by decide),
   (claim4_poison_pill_isolation env4 {} 0 [["m1"], ["m2"]] rfl).2 "m2" (by decide)⟩

/-- C9: `processCalendarEvents` never propagates an exception: whenever its
try block (mirrored by `runCalendarEvents`) throws — calendar listing, event
listing, delete or patch — the catch returns `false` with the side effects
performed so far; and a calendar outage does not prevent checkpoint
advancement: with a history batch present, `handleEvent` persists the
notification's position whatever the calendar (or any per-message) oracle
does. -/
theorem claim9_calendar_outage_isolated (env : Env) :
    (∀ (pfx : String) (opts : CalOpts) (w : World) (e : ApiErr) (w' : World),
      runCalendarEvents env pfx opts w = .error (e, w') →
      processCalendarEvents env pfx opts w = (false, w')) ∧
    (∀ (p : Payload) (w : World) (hist : List (List String)),
      env.historyResp = .ok (some hist) →
      (∀ c, env.checkpoint = some c → c ≠ 0 → c < p.historyId) →
      (handleEvent env p w).checkpoint = some p.historyId) := by
  constructor
  · intro pfx opts w e w' h
    simp [processCalendarEvents, h]
  · intro p w hist hresp hfresh
    simp [handleEvent, skipCond_false env p hfresh, processGmailHistory, hresp]

/-- Witness for C9: the calendar failure is swallowed as `false`, and the
checkpoint still advances to the notification's position. -/
theorem claim9_calendar_outage_isolated_witness :
    processCalendarEvents env9 "Pay Amex" ⟨"delete", 1, none⟩ {} =
      (false, emit .calListCalendars {}) ∧
    (handleEvent env9 { historyId := 7 } {}).checkpoint = some 7 :=
  ⟨(claim9_calendar_outage_isolated env9).1 "Pay Amex" ⟨"delete", 1, none⟩ {}
      ⟨none, some 500⟩ (emit .calListCalendars {}) rfl,
   (claim9_calendar_outage_isolated env9).2 { historyId := 7 } {} [["m1"]] rfl
      (fun _ hc => nomatch hc)⟩

/-- C5: under the fixed priority order (the two bill rules ahead of it not
matching), a message whose sender contains `capitalone.com` and whose subject
contains `withdrawal notice` (case-insensitively, via lowercasing) with a
body containing `ATT has initiated` dispatches the delete effect on title
prefix `Pay AT&T` with monthOffset 0 and reports a match; a body containing
none of the four recognised merchant phrases yields no match and no calendar
dispatch. -/
theorem claim5_classifier_priority (env : Env) (w : World) (fromAddr subject : String)
    (msg : GmailMsg)
    (hng : ngGuard (sLower fromAddr) (sLower subject) (sLower (extractEmailBody msg)) = false)
    (hsr : sunrunGuard (sLower fromAddr) (sLower subject) (sLower (extractEmailBody msg)) = false)
    (hco : capOneGuard (sLower fromAddr) (sLower subject) = true) :
    (capOneBodyATT (sLower (extractEmailBody msg)) = true →
      handleTransaction env w fromAddr subject msg =
        (true, (processCalendarEvents env "Pay AT&T" ⟨"delete", 0, none⟩ w).2)) ∧
    (capOneBodyATT (sLower (extractEmailBody msg)) = false →
     capOneBodyLowes (sLower (extractEmailBody msg)) = false →
     capOneBodyEastern (sLower (extractEmailBody msg)) = false →
     capOneBodySunrun (sLower (extractEmailBody msg)) = false →
      handleTransaction env w fromAddr subject msg = (false, w)) := by
  constructor
  · intro h
    simp [handleTransaction, hng, hsr, hco, h]
  · intro h₁ h₂ h₃ h₄
    simp [handleTransaction, hng, hsr, hco, h₁, h₂, h₃, h₄]

/-- Witness for C5 on a concrete sender, subject and both bodies. -/
theorem claim5_classifier_priority_witness :
    handleTransaction {} {} "Capital One <alerts@notification.capitalone.com>"
        "Withdrawal Notice" msg5att =
      (true, (processCalendarEvents {} "Pay AT&T" ⟨"delete", 0, none⟩ {}).2) ∧
    handleTransaction {} {} "Capital One <alerts@notification.capitalone.com>"
        "Withdrawal Notice" msg5unknown = (false, {}) :=
  ⟨(claim5_classifier_priority {} {} _ _ msg5att (by decide) (by decide) (by decide)).1
      (by decide),
   (claim5_classifier_priority {} {} _ _ msg5unknown (by decide) (by decide) (by decide)).2
      (by decide) (by decide) (by decide) (by decide)⟩

/-- C6: for a message matching the Comcast/Xfinity rule's sender and subject
patterns (and none of the earlier rules, per the fixed priority order), an
extracted dollar amount in the band [100, 200] (in exact cents) dispatches
the delete effect on prefix `Comcast / Xfinity Withdrawal` with monthOffset
0; no dollar-amount match in the subject, or an amount outside the band,
makes the rule non-matching: `handleTransaction` reports no match and the
world — hence the calendar — is untouched. -/
theorem claim6_amount_band (env : Env) (w : World) (fromAddr subject : String)
    (msg : GmailMsg)
    (hng : ngGuard (sLower fromAddr) (sLower subject) (sLower (extractEmailBody msg)) = false)
    (hsr : sunrunGuard (sLower fromAddr) (sLower subject) (sLower (extractEmailBody msg)) = false)
    (hco : capOneGuard (sLower fromAddr) (sLower subject) = false)
    (hax : amexGuard (sLower fromAddr) (sLower subject) = false)
    (hcc : chaseCardGuard (sLower fromAddr) (sLower subject) = false)
    (hcm : chaseMortgageGuard (sLower fromAddr) (sLower subject) = false)
    (hcx : comcastGuard (sLower fromAddr) (sLower subject) = true) :
    (∀ g cents, amountMatch subject.data = some g →
      parseFloatCents (stripCommas g) = some cents →
      100 * 100 ≤ cents → cents ≤ 200 * 100 →
      handleTransaction env w fromAddr subject msg =
        (true, (processCalendarEvents env "Comcast / Xfinity Withdrawal"
          ⟨"delete", 0, none⟩ w).2)) ∧
    (amountMatch subject.data = none →
      handleTransaction env w fromAddr subject msg = (false, w)) ∧
    (∀ g cents, amountMatch subject.data = some g →
      parseFloatCents (stripCommas g) = some cents →
      (cents < 100 * 100 ∨ 200 * 100 < cents) →
      handleTransaction env w fromAddr subject msg = (false, w)) := by
  refine ⟨fun g cents hg hp hlo hhi => ?_, fun hnone => ?_, fun g cents hg hp hout => ?_⟩
  · have hband : ¬ (cents < 100 * 100 ∨ 200 * 100 < cents) := by omega
    simp [handleTransaction, hng, hsr, hco, hax, hcc, hcm, hcx, hg, hp, hband]
  · simp [handleTransaction, hng, hsr, hco, hax, hcc, hcm, hcx, hnone]
  · have hband : cents < 100 * 100 ∨ 200 * 100 < cents := hout
    simp [handleTransaction, hng, hsr, hco, hax, hcc, hcm, hcx, hg, hp, hband]

/-- Witness for C6 at the spec's own example subjects: $150.00 accepted,
$500.00 rejected, and a subject with no dollar amount rejected. -/
theorem claim6_amount_band_witness :
    handleTransaction {} {} "no-reply@alerts.chase.com"
        "Your transaction with COMCAST / XFINITY of $150.00"
        ⟨.node "multipart/mixed" [] none []⟩ =
      (true, (processCalendarEvents {} "Comcast / Xfinity Withdrawal"
        ⟨"delete", 0, none⟩ {}).2) ∧
    handleTransaction {} {} "no-reply@alerts.chase.com"
        "Your transaction with COMCAST / XFINITY of $500.00"
        ⟨.node "multipart/mixed" [] none []⟩ = (false, {}) ∧
    handleTransaction {} {} "no-reply@alerts.chase.com"
        "Your transaction with COMCAST / XFINITY"
        ⟨.node "multipart/mixed" [] none []⟩ = (false, {}) :=
  ⟨(claim6_amount_band {} {} _ _ _ (by decide) (by decide) (by decide) (by decide)
      (by decide) (by decide) (by decide)).1 "150.00" 15000 (by decide) (by decide)
      (by decide) (by decide),
   (claim6_amount_band {} {} _ _ _ (by decide) (by decide) (by decide) (by decide)
      (by decide) (by decide) (by decide)).2.2 "500.00" 50000 (by decide) (by decide)
      (Or.inr (by decide)),
   (claim6_amount_band {} {} _ _ _ (by decide) (by decide) (by decide) (by decide)
      (by decide) (by decide) (by decide)).2.1 (by decide)⟩

/-! ### Calendar loop lemmas -/

theorem applyPatch_id (b : PatchBody) (e : CalEvent) : (applyPatch b e).id = e.id := rfl

theorem applyPatch_idem (b : PatchBody) (e : CalEvent) :
    applyPatch b (applyPatch b e) = applyPatch b e := by
  cases b with
  | mk bs bst bx =>
    cases bs <;> cases bst <;> cases bx <;> simp [applyPatch]

/-- A faultless delete run of the event loop succeeds and leaves, for every
event of the snapshot, its delete call — carrying the date computed from
`originalStartTime || start` — in the trace. -/
theorem calEventsLoop_delete_mem (env : Env) (calId : String) (off : Int)
    (hdf : ∀ i, env.deleteFault i = none) :
    ∀ (ms : List CalEvent) (w : World), ∃ w',
      calEventsLoop env calId ⟨"delete", off, none⟩ ms w = .ok w' ∧
      ∀ m ∈ ms, Call.calDelete calId m.id
        (reportedDate env (jsOrTime m.originalStartTime m.start)) ∈ w'.trace := by
  intro ms
  induction ms with
  | nil => intro w; exact ⟨w, rfl, by simp⟩
  | cons e rest ih =>
    intro w
    obtain ⟨w', hw', hmem⟩ := ih
      { emit (Call.calDelete calId e.id
          (reportedDate env (jsOrTime e.originalStartTime e.start))) w with
        cal := applyDelete e.id (emit (Call.calDelete calId e.id
          (reportedDate env (jsOrTime e.originalStartTime e.start))) w).cal }
    refine ⟨w', ?_, ?_⟩
    · simp only [calEventsLoop, if_pos rfl, hdf e.id]
      exact hw'
    · intro m hm
      rcases List.mem_cons.mp hm with hm | hm
      · subst hm
        have hpre := trace_calEventsLoop env calId ⟨"delete", off, none⟩ rest
          { emit (Call.calDelete calId m.id
              (reportedDate env (jsOrTime m.originalStartTime m.start))) w with
            cal := applyDelete m.id (emit (Call.calDelete calId m.id
              (reportedDate env (jsOrTime m.originalStartTime m.start))) w).cal }
        rw [hw'] at hpre
        refine hpre.sublist.subset ?_
        simp [emit]
      · exact hmem m hm

/-- A faultless patch run of the event loop succeeds; its state effect is the
left fold of by-id patches over the snapshot, nothing else changes, and every
new trace entry is a patch request carrying exactly `{ summary := title }`. -/
theorem calEventsLoop_patch_state (env : Env) (calId : String) (off : Int)
    (tt : Option String) (hpf : ∀ i, env.patchFault i = none) :
    ∀ (ms : List CalEvent) (w : World), ∃ w',
      calEventsLoop env calId ⟨"patch", off, tt⟩ ms w = .ok w' ∧
      w'.cal.events = ms.foldl (fun evs m => evs.map (fun e =>
        if e.id = m.id then applyPatch { summary := tt } e else e)) w.cal.events ∧
      w'.cal.calendars = w.cal.calendars ∧
      w'.drive = w.drive ∧ w'.ledger = w.ledger ∧
      ∀ c ∈ w'.trace, c ∈ w.trace ∨
        ∃ eid, c = Call.calPatch calId eid { summary := tt } := by
  intro ms
  induction ms with
  | nil => intro w; exact ⟨w, rfl, by simp, rfl, rfl, rfl, fun c hc => Or.inl hc⟩
  | cons e rest ih =>
    intro w
    obtain ⟨w', hw', hevs, hcals, hdrv, hled, htr⟩ := ih
      { emit (Call.calPatch calId e.id { summary := tt }) w with
        cal := applyPatchState e.id { summary := tt }
          (emit (Call.calPatch calId e.id { summary := tt }) w).cal }
    refine ⟨w', ?_, ?_, ?_, hdrv, hled, ?_⟩
    · simp only [calEventsLoop]
      norm_num [hpf e.id]
      exact hw'
    · rw [hevs]
      simp [applyPatchState, emit, List.foldl_cons]
    · rw [hcals]; rfl
    · intro c hc
      rcases htr c hc with hc' | hc'
      · have hsplit : c ∈ w.trace ∨ c = Call.calPatch calId e.id { summary := tt } := by
          simpa [emit] using hc'
        rcases hsplit with h | h
        · exact Or.inl h
        · exact Or.inr ⟨e.id, h⟩
      · exact Or.inr hc'

/-- The left fold of by-id patches collapses to one map: each event is
patched exactly when its id occurs among the snapshot's ids. -/
theorem foldl_patch_map (body : PatchBody) :
    ∀ (ms : List CalEvent) (l : List CalEvent),
      ms.foldl (fun evs m => evs.map (fun e =>
        if e.id = m.id then applyPatch body e else e)) l
      = l.map (fun e =>
          if ms.any (fun m => e.id = m.id) then applyPatch body e else e) := by
  intro ms
  induction ms with
  | nil => intro l; simp
  | cons m rest ih =>
    intro l
    rw [List.foldl_cons, ih, List.map_map]
    refine List.map_congr_left ?_
    intro e _
    simp only [Function.comp_apply, List.any_cons]
    by_cases h : e.id = m.id
    · by_cases h₂ : rest.any (fun m' => e.id = m'.id)
      · simp [h, h₂, applyPatch_id, applyPatch_idem]
      · simp [h, h₂, applyPatch_id, applyPatch_idem]
    · by_cases h₂ : rest.any (fun m' => e.id = m'.id)
      · simp [h, h₂]
      · simp [h, h₂]

/-- With pairwise-distinct event ids, an event's id occurs among a filtered
snapshot's ids exactly when the event itself passes the filter. -/
theorem any_id_of_filter (p : CalEvent → Bool) (l : List CalEvent)
    (hnd : (l.map (fun e => e.id)).Nodup) (e : CalEvent) (he : e ∈ l) :
    (l.filter p).any (fun m => e.id = m.id) = p e := by
  by_cases hp : p e = true
  · rw [hp]
    rw [List.any_eq_true]
    exact ⟨e, List.mem_filter.mpr ⟨he, hp⟩, by simp⟩
  · have hp' : p e = false := by simpa using hp
    rw [hp']
    rw [List.any_eq_false]
    intro m hm hc
    have hm' := List.mem_filter.mp hm
    have hid : e.id = m.id := by simpa using hc
    have : e = m := List.inj_on_of_nodup_map hnd he hm'.1 hid
    subst this
    exact hp (hm'.2)

/-- Unfolding of `processCalendarEvents` when both list calls succeed and the
configured calendar resolves: the month's events are filtered by title and
the loop's outcome is returned, a caught loop error yielding `false`. -/
theorem processCalendarEvents_run (env : Env) (pfx : String) (act : String) (off : Int)
    (tt : Option String) (w : World) (targetCal : CalEntry)
    (hlc : env.listCalsFault = none) (hle : env.listEventsFault = none)
    (hcal : w.cal.calendars.find? (fun c => c.summary = env.calendarName) = some targetCal) :
    processCalendarEvents env pfx ⟨act, off, tt⟩ w =
      (if ((w.cal.events.filter (fun e =>
            decide (e.calId = targetCal.id ∧
              e.monthKey = env.nowMonthIndex + off))).filter
            (fun e => sStartsWith e.summary pfx)).isEmpty then
        (false, emit (.calListEvents targetCal.id (env.nowMonthIndex + off))
          (emit .calListCalendars w))
       else
         match calEventsLoop env targetCal.id ⟨act, off, tt⟩
            ((w.cal.events.filter (fun e =>
              decide (e.calId = targetCal.id ∧
                e.monthKey = env.nowMonthIndex + off))).filter
              (fun e => sStartsWith e.summary pfx))
            (emit (.calListEvents targetCal.id (env.nowMonthIndex + off))
              (emit .calListCalendars w)) with
         | .ok w' => (true, w')
         | .error (_, w') => (false, w')) := by
  simp only [processCalendarEvents, runCalendarEvents, emit]
  simp only [hlc, hle]
  rw [show ({ w with trace := w.trace ++ [Call.calListCalendars] } : World).cal.calendars
      = w.cal.calendars from rfl]
  simp only [hcal]
  cases hev : (List.filter (fun e => sStartsWith e.summary pfx)
      (List.filter (fun e =>
        decide (e.calId = targetCal.id ∧ e.monthKey = env.nowMonthIndex + off))
        w.cal.events)).isEmpty with
  | true => simp
  | false =>
    simp only [Bool.false_eq_true, if_false]
    cases hl : calEventsLoop env targetCal.id ⟨act, off, tt⟩
        (List.filter (fun e => sStartsWith e.summary pfx)
          (List.filter (fun e =>
            decide (e.calId = targetCal.id ∧ e.monthKey = env.nowMonthIndex + off))
            w.cal.events))
        { w with trace := w.trace ++ [Call.calListCalendars] ++
            [Call.calListEvents targetCal.id (env.nowMonthIndex + off)] } with
    | ok w' => rfl
    | error p => cases p; rfl

/-- C8: every matching event deleted by the delete effect has its deletion
reported (logged) with the date computed from the event's
`originalStartTime` when that field is present, and from its `start`
otherwise — the recurring series' template time plays no role.  Stated for
any date-conversion function `env.toIsoDate` (the JS
`new Date(...).toISOString().split('T')[0]` pipeline). -/
theorem claim8_delete_occurrence_date (env : Env) (pfx : String) (off : Int)
    (w : World) (cal : CalEntry) (e : CalEvent)
    (hlc : env.listCalsFault = none) (hle : env.listEventsFault = none)
    (hdf : ∀ i, env.deleteFault i = none)
    (hcal : w.cal.calendars.find? (fun c => c.summary = env.calendarName) = some cal)
    (he : e ∈ w.cal.events) (hcid : e.calId = cal.id)
    (hmk : e.monthKey = env.nowMonthIndex + off)
    (hsw : sStartsWith e.summary pfx = true) :
    (∀ t, e.originalStartTime = some t →
      Call.calDelete cal.id e.id (jsOrStr t.date (env.toIsoDate t.dateTime)) ∈
        (processCalendarEvents env pfx ⟨"delete", off, none⟩ w).2.trace) ∧
    (e.originalStartTime = none →
      Call.calDelete cal.id e.id (jsOrStr e.start.date (env.toIsoDate e.start.dateTime)) ∈
        (processCalendarEvents env pfx ⟨"delete", off, none⟩ w).2.trace) := by
  have hmem : e ∈ (w.cal.events.filter (fun x =>
      decide (x.calId = cal.id ∧ x.monthKey = env.nowMonthIndex + off))).filter
      (fun x => sStartsWith x.summary pfx) :=
    List.mem_filter.mpr ⟨List.mem_filter.mpr ⟨he, by simp [hcid, hmk]⟩, hsw⟩
  obtain ⟨w', hw', hmemtr⟩ := calEventsLoop_delete_mem env cal.id off hdf
    ((w.cal.events.filter (fun x =>
      decide (x.calId = cal.id ∧ x.monthKey = env.nowMonthIndex + off))).filter
      (fun x => sStartsWith x.summary pfx))
    (emit (.calListEvents cal.id (env.nowMonthIndex + off)) (emit .calListCalendars w))
  have hne : ¬ ((w.cal.events.filter (fun x =>
      decide (x.calId = cal.id ∧ x.monthKey = env.nowMonthIndex + off))).filter
      (fun x => sStartsWith x.summary pfx)).isEmpty = true := by
    simp only [List.isEmpty_iff]
    exact fun hnil => (List.ne_nil_of_mem hmem) hnil
  have hproc : processCalendarEvents env pfx ⟨"delete", off, none⟩ w = (true, w') := by
    rw [processCalendarEvents_run env pfx "delete" off none w cal hlc hle hcal,
      if_neg hne, hw']
  have hdate := hmemtr e hmem
  constructor
  · intro t ht
    rw [hproc]
    simpa [reportedDate, jsOrTime, ht] using hdate
  · intro ht
    rw [hproc]
    simpa [reportedDate, jsOrTime, ht] using hdate

/-- C10: the patch effect changes each matching event's summary to the
effect's template value and nothing else — non-matching events are untouched,
matching events keep every other field, and every patch request sent carries
only the `summary` field.  Requires pairwise-distinct event ids (the remote
service's own invariant, since ids are its primary keys). -/
theorem claim10_patch_only_title (env : Env) (pfx : String) (off : Int) (tt : String)
    (w : World) (cal : CalEntry)
    (hlc : env.listCalsFault = none) (hle : env.listEventsFault = none)
    (hpf : ∀ i, env.patchFault i = none)
    (hcal : w.cal.calendars.find? (fun c => c.summary = env.calendarName) = some cal)
    (hnd : (w.cal.events.map (fun e => e.id)).Nodup) :
    (processCalendarEvents env pfx ⟨"patch", off, some tt⟩ w).2.cal.events =
      w.cal.events.map (fun e =>
        if (sStartsWith e.summary pfx &&
            decide (e.calId = cal.id ∧ e.monthKey = env.nowMonthIndex + off)) = true
        then { e with summary := tt } else e) ∧
    (∀ c ∈ (processCalendarEvents env pfx ⟨"patch", off, some tt⟩ w).2.trace,
      c ∈ w.trace ∨ c = Call.calListCalendars ∨
      c = Call.calListEvents cal.id (env.nowMonthIndex + off) ∨
      ∃ eid, c = Call.calPatch cal.id eid { summary := some tt }) := by
  rw [processCalendarEvents_run env pfx "patch" off (some tt) w cal hlc hle hcal]
  rw [List.filter_filter]
  by_cases hev : (w.cal.events.filter (fun e =>
      sStartsWith e.summary pfx &&
        decide (e.calId = cal.id ∧ e.monthKey = env.nowMonthIndex + off))).isEmpty = true
  · rw [if_pos hev]
    have hnomatch : ∀ e ∈ w.cal.events,
        ¬ (sStartsWith e.summary pfx &&
          decide (e.calId = cal.id ∧ e.monthKey = env.nowMonthIndex + off)) = true := by
      rw [List.isEmpty_iff, List.filter_eq_nil_iff] at hev
      exact hev
    constructor
    · have hid : w.cal.events.map (fun e =>
          if (sStartsWith e.summary pfx &&
              decide (e.calId = cal.id ∧ e.monthKey = env.nowMonthIndex + off)) = true
          then { e with summary := tt } else e) = w.cal.events :=
        (List.map_congr_left fun e he => if_neg (hnomatch e he)).trans (List.map_id' _)
      exact hid.symm
    · intro c hc
      have hsplit : c ∈ w.trace ∨ c = Call.calListCalendars ∨
          c = Call.calListEvents cal.id (env.nowMonthIndex + off) := by
        simpa [emit, List.mem_append, or_assoc] using hc
      rcases hsplit with h | h | h
      · exact Or.inl h
      · exact Or.inr (Or.inl h)
      · exact Or.inr (Or.inr (Or.inl h))
  · rw [if_neg hev]
    obtain ⟨w', hw', hevs, hcals, hdrv, hled, htr⟩ :=
      calEventsLoop_patch_state env cal.id off (some tt) hpf
        (w.cal.events.filter (fun e =>
          sStartsWith e.summary pfx &&
            decide (e.calId = cal.id ∧ e.monthKey = env.nowMonthIndex + off)))
        (emit (.calListEvents cal.id (env.nowMonthIndex + off)) (emit .calListCalendars w))
    rw [hw']
    constructor
    · rw [hevs, foldl_patch_map]
      refine List.map_congr_left ?_
      intro e he
      rw [any_id_of_filter _ w.cal.events hnd e he]
      by_cases hp : (sStartsWith e.summary pfx &&
          decide (e.calId = cal.id ∧ e.monthKey = env.nowMonthIndex + off)) = true
      · rw [if_pos hp, if_pos hp]; rfl
      · rw [if_neg hp, if_neg hp]
    · intro c hc
      rcases htr c hc with hc' | hc'
      · have hsplit : c ∈ w.trace ∨ c = Call.calListCalendars ∨
            c = Call.calListEvents cal.id (env.nowMonthIndex + off) := by
          simpa [emit, List.mem_append, or_assoc] using hc'
        rcases hsplit with h | h | h
        · exact Or.inl h
        · exact Or.inr (Or.inl h)
        · exact Or.inr (Or.inr (Or.inl h))
      · exact Or.inr (Or.inr (Or.inr hc'))

/-- Witness for C8: the recurring instance reports its original date
2026-03-03 (not its start 2026-03-05), the plain event its start. -/
theorem claim8_delete_occurrence_date_witness :
    Call.calDelete "calA" "ev1" "2026-03-03" ∈
      (processCalendarEvents {} "Pay Amex" ⟨"delete", 1, none⟩ w8).2.trace ∧
    Call.calDelete "calA" "ev2" "2026-03-07" ∈
      (processCalendarEvents {} "Pay Amex" ⟨"delete", 1, none⟩ w8).2.trace := by
  constructor
  · have h := (claim8_delete_occurrence_date {} "Pay Amex" 1 w8 cal8 ev8a rfl rfl
      (fun _ => rfl) rfl (by decide) rfl (by decide) (by decide)).1
      ⟨some "2026-03-03", ""⟩ rfl
    simpa [cal8, ev8a, jsOrStr] using h
  · have h := (claim8_delete_occurrence_date {} "Pay Amex" 1 w8 cal8 ev8b rfl rfl
      (fun _ => rfl) rfl (by decide) rfl (by decide) (by decide)).2 rfl
    simpa [cal8, ev8b, jsOrStr] using h

/-- Witness for C10: both matching events are relabeled to the template
value, all their other fields surviving, and every patch request carries only
the summary. -/
theorem claim10_patch_only_title_witness :
    (processCalendarEvents {} "Pay Amex" ⟨"patch", 1, some "Paid"⟩ w8).2.cal.events =
      [{ ev8a with summary := "Paid" }, { ev8b with summary := "Paid" }] ∧
    ∀ c ∈ (processCalendarEvents {} "Pay Amex" ⟨"patch", 1, some "Paid"⟩ w8).2.trace,
      c ∈ w8.trace ∨ c = Call.calListCalendars ∨ c = Call.calListEvents "calA" 1 ∨
      ∃ eid, c = Call.calPatch "calA" eid { summary := some "Paid" } := by
  have h := claim10_patch_only_title {} "Pay Amex" 1 "Paid" w8 cal8 rfl rfl
    (fun _ => rfl) rfl (by decide)
  constructor
  · rw [h.1]; decide
  · intro c hc
    have hh := h.2 c hc
    simpa [cal8] using hh

/-! ### Drive lemmas -/

theorem splitByAux_ne_nil (p : Char → Bool) :
    ∀ (acc l : List Char), splitByAux p acc l ≠ [] := by
  intro acc l
  induction l generalizing acc with
  | nil => simp [splitByAux]
  | cons c rest ih =>
    simp only [splitByAux]
    split
    · simp
    · exact ih (c :: acc)

theorem splitSlash_ne_nil (s : String) : splitSlash s ≠ [] :=
  splitByAux_ne_nil _ [] s.data

/-- A folder-query hit survives appending more folders (first match in a
prefix stays the first match). -/
theorem folderQueryFind_append (n : String) (p : Option String) (l ext : List DFolder)
    (f : DFolder) (h : folderQueryFind n p l = some f) :
    folderQueryFind n p (l ++ ext) = some f := by
  unfold folderQueryFind at h ⊢
  rw [List.find?_append, h]
  rfl

/-- On a query hit, `#findOrCreateFolder` returns the found folder's id and
only logs the query. -/
theorem findOrCreateFolder_found (n : String) (p : Option String) (w : World)
    (f : DFolder) (h : folderQueryFind n p w.drive.folders = some f) :
    findOrCreateFolder n p w = (f.id, emit (.driveFolderQuery n p) w) := by
  simp only [findOrCreateFolder]
  rw [show (emit (Call.driveFolderQuery n p) w).drive.folders = w.drive.folders from rfl]
  rw [h]

/-- After `#findOrCreateFolder`, a folder answering the query exists and
carries the returned id; folders only grow by appending, and files and the
other services are untouched. -/
theorem findOrCreateFolder_spec (n : String) (p : Option String) (w : World) :
    (∃ f, folderQueryFind n p (findOrCreateFolder n p w).2.drive.folders = some f ∧
      f.id = (findOrCreateFolder n p w).1) ∧
    w.drive.folders <+: (findOrCreateFolder n p w).2.drive.folders ∧
    (findOrCreateFolder n p w).2.drive.files = w.drive.files ∧
    (findOrCreateFolder n p w).2.cal = w.cal ∧
    (findOrCreateFolder n p w).2.ledger = w.ledger := by
  simp only [findOrCreateFolder]
  rw [show (emit (Call.driveFolderQuery n p) w).drive.folders = w.drive.folders from rfl]
  cases h : folderQueryFind n p w.drive.folders with
  | some f => exact ⟨⟨f, h, rfl⟩, List.prefix_refl _, rfl, rfl, rfl⟩
  | none =>
    refine ⟨⟨⟨"fld" ++ toString w.drive.nextId, n, p, false⟩, ?_, rfl⟩,
      List.prefix_append _ _, rfl, rfl, rfl⟩
    unfold folderQueryFind at h ⊢
    rw [List.find?_append,
      show (emit (Call.driveCreateFolder
          ("fld" ++ toString (emit (Call.driveFolderQuery n p) w).drive.nextId) n p)
        (emit (Call.driveFolderQuery n p) w)).drive.folders = w.drive.folders from rfl,
      h]
    simp
    rfl

/-- Path resolution only appends folders and leaves files, calendar and
ledger untouched. -/
theorem resolveFolders_spec : ∀ (names : List String) (p : Option String) (w : World),
    w.drive.folders <+: (resolveFolders names p w).2.drive.folders ∧
    (resolveFolders names p w).2.drive.files = w.drive.files ∧
    (resolveFolders names p w).2.cal = w.cal ∧
    (resolveFolders names p w).2.ledger = w.ledger := by
  intro names
  induction names with
  | nil => intro p w; exact ⟨List.prefix_refl _, rfl, rfl, rfl⟩
  | cons n rest ih =>
    intro p w
    obtain ⟨_, hpre, hfiles, hcal, hled⟩ := findOrCreateFolder_spec n p w
    obtain ⟨hpre₂, hfiles₂, hcal₂, hled₂⟩ :=
      ih (some (findOrCreateFolder n p w).1) (findOrCreateFolder n p w).2
    exact ⟨hpre.trans hpre₂, hfiles₂.trans hfiles, hcal₂.trans hcal, hled₂.trans hled⟩

/-- Resolution on a nonempty path always produces a leaf folder id. -/
theorem resolveFolders_isSome : ∀ (names : List String) (p : Option String) (w : World),
    names ≠ [] → ∃ q, (resolveFolders names p w).1 = some q := by
  intro names
  induction names with
  | nil => intro p w h; exact absurd rfl h
  | cons n rest ih =>
    intro p w _
    cases hr : rest with
    | nil =>
      exact ⟨(findOrCreateFolder n p w).1, by simp [resolveFolders]⟩
    | cons m ms =>
      obtain ⟨q, hq⟩ := ih (some (findOrCreateFolder n p w).1)
        (findOrCreateFolder n p w).2 (by simp [hr])
      exact ⟨q, by rw [← hr] at *; simpa [resolveFolders] using hq⟩

/-- Once a resolution run has created or found every level, a second run over
any state whose folder list extends the first run's resolves to the same leaf
id without touching the drive at all. -/
theorem resolveFolders_idem : ∀ (names : List String) (p : Option String) (w w₂ : World),
    (resolveFolders names p w).2.drive.folders <+: w₂.drive.folders →
    (resolveFolders names p w₂).1 = (resolveFolders names p w).1 ∧
    (resolveFolders names p w₂).2.drive = w₂.drive ∧
    (resolveFolders names p w₂).2.cal = w₂.cal ∧
    (resolveFolders names p w₂).2.ledger = w₂.ledger := by
  intro names
  induction names with
  | nil => intro p w w₂ _; exact ⟨rfl, rfl, rfl, rfl⟩
  | cons n rest ih =>
    intro p w w₂ hp
    obtain ⟨⟨f, hf, hfid⟩, _, _, _, _⟩ := findOrCreateFolder_spec n p w
    have hpre₂ : (findOrCreateFolder n p w).2.drive.folders <+: w₂.drive.folders :=
      ((resolveFolders_spec rest (some (findOrCreateFolder n p w).1)
        (findOrCreateFolder n p w).2).1).trans hp
    obtain ⟨ext, hext⟩ := hpre₂
    have hf₂ : folderQueryFind n p w₂.drive.folders = some f := by
      rw [← hext]
      exact folderQueryFind_append n p _ ext f hf
    have hstep := findOrCreateFolder_found n p w₂ f hf₂
    have hunf : resolveFolders (n :: rest) p w₂ =
        resolveFolders rest (some (findOrCreateFolder n p w).1)
          (emit (.driveFolderQuery n p) w₂) := by
      simp only [resolveFolders, hstep, hfid]
    rw [hunf]
    obtain ⟨hres, hdrv, hcal, hled⟩ := ih (some (findOrCreateFolder n p w).1)
      (findOrCreateFolder n p w).2 (emit (.driveFolderQuery n p) w₂) hp
    exact ⟨hres, hdrv, hcal, hled⟩

/-- Updating a file's content in place moves the file query's answer through
the update: name, parent and trashed are untouched, so the first match sits
at the same position. -/
theorem fileQueryFind_map_content (name : String) (pid : Option String) (c : String)
    (fid : String) : ∀ files : List DFile,
    fileQueryFind name pid (files.map (fun x =>
      if x.id = fid then { x with content := c } else x)) =
    (fileQueryFind name pid files).map (fun x =>
      if x.id = fid then { x with content := c } else x) := by
  intro files
  induction files with
  | nil => rfl
  | cons a l ih =>
    simp only [List.map_cons]
    unfold fileQueryFind at ih ⊢
    rw [List.find?_cons, List.find?_cons]
    have hpg : (decide ((if a.id = fid then { a with content := c } else a).name = name ∧
        fileParentMatch pid (if a.id = fid then { a with content := c } else a) = true ∧
        (if a.id = fid then { a with content := c } else a).trashed = false)) =
      (decide (a.name = name ∧ fileParentMatch pid a = true ∧ a.trashed = false)) := by
      by_cases hid : a.id = fid <;> cases pid <;> simp [hid, fileParentMatch]
    rw [hpg]
    cases hpa : decide (a.name = name ∧ fileParentMatch pid a = true ∧ a.trashed = false) with
    | true => rfl
    | false => exact ih

/-- A file query that missed a list still runs on an appended tail alone. -/
theorem fileQueryFind_append_none (name : String) (pid : Option String)
    (files ext : List DFile) (h : fileQueryFind name pid files = none) :
    fileQueryFind name pid (files ++ ext) = fileQueryFind name pid ext := by
  unfold fileQueryFind at h ⊢
  rw [List.find?_append, h]
  rfl

/-- `uploadToDrive` on a query hit: update in place under the same id. -/
theorem uploadToDrive_update (fd : FileData) (path : String) (w : World) (f : DFile)
    (h : fileQueryFind fd.fileName (resolveFolders (splitSlash path) none w).1
      (resolveFolders (splitSlash path) none w).2.drive.files = some f) :
    uploadToDrive fd path w =
      (f.id,
       { emit (.driveUpdateFile f.id)
           (emit (.driveFileQuery fd.fileName (resolveFolders (splitSlash path) none w).1)
             (resolveFolders (splitSlash path) none w).2) with
         drive := { (resolveFolders (splitSlash path) none w).2.drive with
           files := (resolveFolders (splitSlash path) none w).2.drive.files.map
             (fun x => if x.id = f.id then { x with content := fd.buffer } else x) } }) := by
  simp only [uploadToDrive]
  rw [show (emit (.driveFileQuery fd.fileName (resolveFolders (splitSlash path) none w).1)
      (resolveFolders (splitSlash path) none w).2).drive.files
    = (resolveFolders (splitSlash path) none w).2.drive.files from rfl]
  rw [h]
  rfl

/-- `uploadToDrive` on a query miss: create a fresh file in the leaf. -/
theorem uploadToDrive_create (fd : FileData) (path : String) (w : World)
    (h : fileQueryFind fd.fileName (resolveFolders (splitSlash path) none w).1
      (resolveFolders (splitSlash path) none w).2.drive.files = none) :
    uploadToDrive fd path w =
      ("fil" ++ toString (resolveFolders (splitSlash path) none w).2.drive.nextId,
       { emit (.driveCreateFile
             ("fil" ++ toString (resolveFolders (splitSlash path) none w).2.drive.nextId)
             fd.fileName (resolveFolders (splitSlash path) none w).1)
           (emit (.driveFileQuery fd.fileName (resolveFolders (splitSlash path) none w).1)
             (resolveFolders (splitSlash path) none w).2) with
         drive := { (resolveFolders (splitSlash path) none w).2.drive with
           files := (resolveFolders (splitSlash path) none w).2.drive.files ++
             [{ id := "fil" ++ toString (resolveFolders (splitSlash path) none w).2.drive.nextId,
                name := fd.fileName,
                parent := (resolveFolders (splitSlash path) none w).1,
                content := fd.buffer }],
           nextId := (resolveFolders (splitSlash path) none w).2.drive.nextId + 1 } }) := by
  simp only [uploadToDrive]
  rw [show (emit (.driveFileQuery fd.fileName (resolveFolders (splitSlash path) none w).1)
      (resolveFolders (splitSlash path) none w).2).drive.files
    = (resolveFolders (splitSlash path) none w).2.drive.files from rfl]
  rw [h]
  rfl

/-- Content updates preserve every file's id, name, parent and trashed flag. -/
theorem files_map_shape (c : String) (fid : String) (files : List DFile) :
    (files.map (fun x => if x.id = fid then { x with content := c } else x)).map
      (fun x => (x.id, x.name, x.parent, x.trashed)) =
    files.map (fun x => (x.id, x.name, x.parent, x.trashed)) := by
  rw [List.map_map]
  refine List.map_congr_left ?_
  intro x _
  by_cases h : x.id = fid <;> simp [h]

/-- C7: archiving resolves the '/'-delimited path level by level with
find-by-name-and-parent, creating only on a miss; a same-named, same-parent
file is updated in place under its existing identifier, otherwise a new file
is created; and repeating the whole archive call creates no folder, touches
the same file id, and changes no file's identity (id, name, parent, trashed)
— re-delivery is a safe overwrite, never a duplicate. -/
theorem claim7_archive_idempotent (fd : FileData) (path : String) (w : World) :
    (∀ f, fileQueryFind fd.fileName (resolveFolders (splitSlash path) none w).1
        (resolveFolders (splitSlash path) none w).2.drive.files = some f →
      (uploadToDrive fd path w).1 = f.id ∧
      (uploadToDrive fd path w).2.drive.folders =
        (resolveFolders (splitSlash path) none w).2.drive.folders ∧
      (uploadToDrive fd path w).2.drive.files =
        (resolveFolders (splitSlash path) none w).2.drive.files.map
          (fun x => if x.id = f.id then { x with content := fd.buffer } else x)) ∧
    (fileQueryFind fd.fileName (resolveFolders (splitSlash path) none w).1
        (resolveFolders (splitSlash path) none w).2.drive.files = none →
      (uploadToDrive fd path w).2.drive.folders =
        (resolveFolders (splitSlash path) none w).2.drive.folders ∧
      (uploadToDrive fd path w).2.drive.files =
        (resolveFolders (splitSlash path) none w).2.drive.files ++
          [{ id := (uploadToDrive fd path w).1, name := fd.fileName,
             parent := (resolveFolders (splitSlash path) none w).1,
             content := fd.buffer }]) ∧
    ((uploadToDrive fd path (uploadToDrive fd path w).2).2.drive.folders =
        (uploadToDrive fd path w).2.drive.folders ∧
     (uploadToDrive fd path (uploadToDrive fd path w).2).1 = (uploadToDrive fd path w).1 ∧
     (uploadToDrive fd path (uploadToDrive fd path w).2).2.drive.files.map
        (fun x => (x.id, x.name, x.parent, x.trashed)) =
      (uploadToDrive fd path w).2.drive.files.map
        (fun x => (x.id, x.name, x.parent, x.trashed))) := by
  refine ⟨?_, ?_, ?_⟩
  · intro f h
    rw [uploadToDrive_update fd path w f h]
    exact ⟨rfl, rfl, rfl⟩
  · intro h
    rw [uploadToDrive_create fd path w h]
    exact ⟨rfl, rfl⟩
  · cases hq : fileQueryFind fd.fileName (resolveFolders (splitSlash path) none w).1
        (resolveFolders (splitSlash path) none w).2.drive.files with
    | some f =>
      rw [uploadToDrive_update fd path w f hq]
      obtain ⟨hres, hdrv, _, _⟩ := resolveFolders_idem (splitSlash path) none w
        ({ emit (.driveUpdateFile f.id)
             (emit (.driveFileQuery fd.fileName (resolveFolders (splitSlash path) none w).1)
               (resolveFolders (splitSlash path) none w).2) with
           drive := { (resolveFolders (splitSlash path) none w).2.drive with
             files := (resolveFolders (splitSlash path) none w).2.drive.files.map
               (fun x => if x.id = f.id then { x with content := fd.buffer } else x) } })
        (List.prefix_refl _)
      have hq₂ : fileQueryFind fd.fileName
          (resolveFolders (splitSlash path) none
            ({ emit (.driveUpdateFile f.id)
               (emit (.driveFileQuery fd.fileName (resolveFolders (splitSlash path) none w).1)
                 (resolveFolders (splitSlash path) none w).2) with
             drive := { (resolveFolders (splitSlash path) none w).2.drive with
               files := (resolveFolders (splitSlash path) none w).2.drive.files.map
                 (fun x => if x.id = f.id then { x with content := fd.buffer } else x) } })).1
          (resolveFolders (splitSlash path) none
            ({ emit (.driveUpdateFile f.id)
               (emit (.driveFileQuery fd.fileName (resolveFolders (splitSlash path) none w).1)
                 (resolveFolders (splitSlash path) none w).2) with
             drive := { (resolveFolders (splitSlash path) none w).2.drive with
               files := (resolveFolders (splitSlash path) none w).2.drive.files.map
                 (fun x => if x.id = f.id then { x with content := fd.buffer } else x) } })).2.drive.files
          = some { f with content := fd.buffer } := by
        rw [hres, hdrv]
        rw [show ({ emit (.driveUpdateFile f.id)
             (emit (.driveFileQuery fd.fileName (resolveFolders (splitSlash path) none w).1)
               (resolveFolders (splitSlash path) none w).2) with
           drive := { (resolveFolders (splitSlash path) none w).2.drive with
             files := (resolveFolders (splitSlash path) none w).2.drive.files.map
               (fun x => if x.id = f.id then { x with content := fd.buffer } else x) } } : World).drive.files
          = (resolveFolders (splitSlash path) none w).2.drive.files.map
               (fun x => if x.id = f.id then { x with content := fd.buffer } else x) from rfl]
        rw [fileQueryFind_map_content, hq]
        simp
      rw [uploadToDrive_update fd path _ { f with content := fd.buffer } hq₂]
      refine ⟨?_, ?_, ?_⟩
      · rw [show ({ f with content := fd.buffer } : DFile).id = f.id from rfl, hdrv]
      · rfl
      · rw [show ({ f with content := fd.buffer } : DFile).id = f.id from rfl, hdrv]
        rw [show ({ emit (.driveUpdateFile f.id)
             (emit (.driveFileQuery fd.fileName (resolveFolders (splitSlash path) none w).1)
               (resolveFolders (splitSlash path) none w).2) with
           drive := { (resolveFolders (splitSlash path) none w).2.drive with
             files := (resolveFolders (splitSlash path) none w).2.drive.files.map
               (fun x => if x.id = f.id then { x with content := fd.buffer } else x) } } : World).drive.files
          = (resolveFolders (splitSlash path) none w).2.drive.files.map
               (fun x => if x.id = f.id then { x with content := fd.buffer } else x) from rfl]
        rw [files_map_shape]
    | none =>
      rw [uploadToDrive_create fd path w hq]
      set W1 : World :=
        { emit (.driveCreateFile
              ("fil" ++ toString (resolveFolders (splitSlash path) none w).2.drive.nextId)
              fd.fileName (resolveFolders (splitSlash path) none w).1)
            (emit (.driveFileQuery fd.fileName (resolveFolders (splitSlash path) none w).1)
              (resolveFolders (splitSlash path) none w).2) with
          drive := { (resolveFolders (splitSlash path) none w).2.drive with
            files := (resolveFolders (splitSlash path) none w).2.drive.files ++
              [{ id := "fil" ++ toString (resolveFolders (splitSlash path) none w).2.drive.nextId,
                 name := fd.fileName,
                 parent := (resolveFolders (splitSlash path) none w).1,
                 content := fd.buffer }],
            nextId := (resolveFolders (splitSlash path) none w).2.drive.nextId + 1 } } with hW1
      obtain ⟨hres, hdrv, _, _⟩ :=
        resolveFolders_idem (splitSlash path) none w W1 (List.prefix_refl _)
      obtain ⟨q, hq1⟩ := resolveFolders_isSome (splitSlash path) none w (splitSlash_ne_nil path)
      have hq₂ : fileQueryFind fd.fileName (resolveFolders (splitSlash path) none W1).1
          (resolveFolders (splitSlash path) none W1).2.drive.files =
          some { id := "fil" ++ toString (resolveFolders (splitSlash path) none w).2.drive.nextId,
                 name := fd.fileName,
                 parent := (resolveFolders (splitSlash path) none w).1,
                 content := fd.buffer } := by
        rw [hres, hdrv]
        rw [show W1.drive.files = (resolveFolders (splitSlash path) none w).2.drive.files ++
            [{ id := "fil" ++ toString (resolveFolders (splitSlash path) none w).2.drive.nextId,
               name := fd.fileName,
               parent := (resolveFolders (splitSlash path) none w).1,
               content := fd.buffer }] from rfl]
        rw [fileQueryFind_append_none _ _ _ _ hq]
        unfold fileQueryFind
        rw [hq1]
        simp [fileParentMatch]
      rw [uploadToDrive_update fd path W1 _ hq₂]
      exact ⟨hdrv.symm ▸ rfl, rfl, by rw [hdrv]; exact files_map_shape _ _ _⟩

/-- Witness for C7 on an empty Drive: the first archive creates the two
folder levels and the file; re-archiving creates no folder and overwrites
the very same file id. -/
theorem claim7_archive_idempotent_witness :
    fileQueryFind fd7.fileName (resolveFolders (splitSlash "House/Bills") none {}).1
        (resolveFolders (splitSlash "House/Bills") none {}).2.drive.files = none ∧
    (uploadToDrive fd7 "House/Bills" {}).2.drive.files =
      (resolveFolders (splitSlash "House/Bills") none {}).2.drive.files ++
        [{ id := (uploadToDrive fd7 "House/Bills" {}).1, name := fd7.fileName,
           parent := (resolveFolders (splitSlash "House/Bills") none {}).1,
           content := fd7.buffer }] ∧
    (uploadToDrive fd7 "House/Bills" (uploadToDrive fd7 "House/Bills" {}).2).2.drive.folders =
      (uploadToDrive fd7 "House/Bills" {}).2.drive.folders ∧
    (uploadToDrive fd7 "House/Bills" (uploadToDrive fd7 "House/Bills" {}).2).1 =
      (uploadToDrive fd7 "House/Bills" {}).1 :=
  have h := claim7_archive_idempotent fd7 "House/Bills" {}
  ⟨by decide, (h.2.1 (by decide)).2, h.2.2.1, h.2.2.2.1⟩

end GmailHandler
